import Mathlib

/-!
Verification of the `aircontrol` acquisition engine (src/src/lib.rs).

The development shallowly embeds the Rust library:
* the report decoder and snapshot assembler `AirControl::read_data`,
* the background worker loop spawned by `AirControl::start_monitoring`,
* the lifecycle operations `AirControl::new` / `start_monitoring` /
  `stop_monitoring`, and
* the observer registry `AirControl::register_callback` together with the
  dispatch loop the worker performs on each successful assembly.

Machine arithmetic: the device reports are 8-byte HID buffers, modelled as
lists of `Fin 256`.  The temperature and humidity conversions in the source
are computed in IEEE-754 single precision (`f32`); every `f32` value and
every intermediate result in this program lies well inside the normal range
of `f32`, so the computation is modelled exactly over `ℚ` by `fl32`, the
round-to-nearest-even projection onto 24-bit-significand dyadic rationals.
The Rust code then renders the result with `format!("{:.2}", x)` and parses
the string back.  `format!` with precision 2 prints the decimal numeral
nearest to the exact binary value of the float (a tie is impossible: an
exact tie would be a rational with denominator 200, which is not dyadic and
hence not an `f32` value).  Parsing a two-decimal numeral of this magnitude
back into `f32` is injective, so the model keeps the decimal value itself,
`round2 (fl32 ...) : ℚ`, as the stored field.
-/

/-- Round a rational to the nearest integer, ties to even (the rounding used
both by IEEE-754 binary arithmetic and by correctly rounded decimal
formatting). -/
def rhe (q : ℚ) : ℤ :=
  let f := ⌊q⌋
  if q - f < 1/2 then f
  else if q - f > 1/2 then f + 1
  else if f % 2 = 0 then f else f + 1

/-- The IEEE-754 `binary32` rounding of a rational: round-to-nearest-even at
24 significant bits.  Exact for the normal range used by this program (no
overflow or subnormal inputs occur: see the range facts proved below). -/
def fl32 (q : ℚ) : ℚ :=
  if q = 0 then 0
  else
    let e := Int.log 2 |q|
    let scale : ℚ := 2 ^ (23 - e)
    (rhe (q * scale) : ℚ) / scale

/-- Rounding to two decimal places, the effect of `format!("{:.2}", x)`
followed by `parse::<f32>()` in the source (see the header comment: the
two-decimal value determines the parsed float injectively on this range). -/
def round2 (q : ℚ) : ℚ := (rhe (q * 100) : ℚ) / 100

/-- A byte of a HID report buffer. -/
abbrev Byte := Fin 256

/-- `const CO2_ADDRESS: u8 = 0x50`. -/
def CO2_ADDRESS : Byte := 0x50

/-- `const TEMPERATURE_ADDRESS: u8 = 0x42`. -/
def TEMPERATURE_ADDRESS : Byte := 0x42

/-- `const HUMIDITY_ADDRESS: u8 = 0x41`. -/
def HUMIDITY_ADDRESS : Byte := 0x41

/-- `let value = ((buf[1] as u16) << 8) | buf[2] as u16`: bytes 1 and 2 of
the raw report as a big-endian unsigned 16-bit value.  Since both bytes are
below 256 the shift-or is exactly `b1 * 256 + b2`, with no overflow. -/
def valueOf (buf : List Byte) : ℕ := (buf.getD 1 0).val * 256 + (buf.getD 2 0).val

/-- `let key = buf[0]`: the field tag of a raw report. -/
def tagOf (buf : List Byte) : Byte := buf.getD 0 0

/-- The `f32` constant `273.15` of the source. -/
def c273_15 : ℚ := fl32 (27315 / 100)

/-- `format!("{:.2}", value as f32 / 16.0 - 273.15).parse::<f32>()`:
the temperature conversion for tag `0x42`.  `value as f32` is exact
(`value < 2^24`), `/ 16.0` and `- 273.15` are each correctly rounded. -/
def tempConv (value : ℕ) : ℚ := round2 (fl32 (fl32 ((value : ℚ) / 16) - c273_15))

/-- `format!("{:.2}", value as f32 / 100.0).parse::<f32>()`: the humidity
conversion for tag `0x41`. -/
def humConv (value : ℕ) : ℚ := round2 (fl32 ((value : ℚ) / 100))

/-- `DeviceData`: one complete snapshot.  `time` stands for the
`DateTime<Utc>` stamp (the acquisition-side clock is an input of the model),
`co2` for the `u16` ppm reading, and the two rational fields hold the value
denoted by the two-decimal float stored by the source. -/
structure DeviceData where
  time : ℕ
  co2 : ℕ
  temperature : ℚ
  humidity : ℚ
deriving DecidableEq

/-- The local state of one `read_data` assembly cycle: the 8-byte read
buffer (`let mut buf = [0u8; 8]`) and the three optional fields being
accumulated. -/
structure AccState where
  buf : List Byte
  co2 : Option ℕ
  temperature : Option ℚ
  humidity : Option ℚ
deriving DecidableEq

/-- The loop guard of `read_data`, negated: the `while` keeps running while
some field `is_none()`, so the loop exits exactly when all three are set. -/
def AccState.complete (st : AccState) : Bool :=
  st.co2.isSome && st.temperature.isSome && st.humidity.isSome

/-- One outcome of `device.read_timeout(&mut buf, 10000)`:
a report of fresh bytes (`Ok(n)` with the buffer filled), a timeout
(hidapi returns `Ok(0)` and leaves the buffer untouched — the source's
`Ok(_)` arm treats it like a read), or a hard transport error (`Err`). -/
inductive ReadEvent where
  | report (b : List Byte)
  | timeout
  | fail (e : String)
deriving DecidableEq

/-- Result of one assembly cycle.  `ok` is `Ok(DeviceData)`, `err` is
`Err(String)`, `pending` means the supplied event list was exhausted with
the loop still waiting on the device (the real loop would block), and
`panic` marks the impossible case in which one of the final `unwrap()`
calls would fail (proved unreachable below). -/
inductive ReadOutcome where
  | ok (d : DeviceData)
  | err (e : String)
  | pending (st : AccState)
  | panic
deriving DecidableEq

/-- The `match key` in `read_data`: decode the current buffer and update
whichever field its tag selects; any other tag falls to `_ => {}`. -/
def decodeUpdate (st : AccState) : AccState :=
  let key := tagOf st.buf
  let value := valueOf st.buf
  if key = CO2_ADDRESS then { st with co2 := some value }
  else if key = TEMPERATURE_ADDRESS then { st with temperature := some (tempConv value) }
  else if key = HUMIDITY_ADDRESS then { st with humidity := some (humConv value) }
  else st

/-- A successful read fills the buffer with the report's bytes and decodes. -/
def stepBuf (st : AccState) (b : List Byte) : AccState :=
  decodeUpdate { st with buf := b }

/-- The trailing `Ok(DeviceData { ... co2.unwrap() ... })` of `read_data`:
build the snapshot from the three options, `panic` if any is still `none`. -/
def finish (now : ℕ) (st : AccState) : ReadOutcome :=
  match st.co2, st.temperature, st.humidity with
  | some c, some t, some h => .ok ⟨now, c, t, h⟩
  | _, _, _ => .panic

/-- The `while co2.is_none() || temperature.is_none() || humidity.is_none()`
loop of `read_data`, driven by a finite schedule of transport outcomes.
Returns the outcome together with the unconsumed rest of the schedule (a
completed cycle leaves later reports on the device for the next cycle). -/
def readDataLoop (now : ℕ) : List ReadEvent → AccState → ReadOutcome × List ReadEvent
  | evs, st =>
    if st.complete then (finish now st, evs)
    else
      match evs with
      | [] => (.pending st, [])
      | .report b :: rest => readDataLoop now rest (stepBuf st b)
      | .timeout :: rest => readDataLoop now rest (decodeUpdate st)
      | .fail e :: rest => (.err ("Could not read the device: " ++ e), rest)

/-- `AirControl::read_data`, started from the fresh state
`buf = [0u8; 8]`, `co2 = None`, `temperature = None`, `humidity = None`.
`now` is the clock value `Utc::now()` would return at completion. -/
def read_data (now : ℕ) (evs : List ReadEvent) : ReadOutcome × List ReadEvent :=
  readDataLoop now evs ⟨List.replicate 8 0, none, none, none⟩

/-- The outcome of one assembly cycle as seen by the worker loop:
`AirControl::read_data(&*device)` returned `Ok(data)` or `Err(error)`. -/
inductive CycleResult where
  | success (d : DeviceData)
  | failure (e : String)
deriving DecidableEq

/-- Why a worker lifetime ended: the loop-top check saw `running == false`,
or an assembly cycle failed (`eprintln!` then `break`). -/
inductive ExitReason where
  | stopped
  | errored (e : String)
deriving DecidableEq

/-- The worker loop body spawned by `start_monitoring`: at the top of each
cycle it loads `running`; while true it locks the device, runs one assembly
cycle, dispatches a success to the callbacks (collected here as the list of
dispatched snapshots) and breaks out on a failure.  The schedule pairs each
potential cycle with the flag value the atomic load returns at that
loop-top and the assembly outcome the device would produce.  `none` as exit
reason means the schedule ran out with the worker still looping. -/
def workerRun : List (Bool × CycleResult) → List DeviceData × Option ExitReason
  | [] => ([], none)
  | (f, r) :: rest =>
    if f then
      match r with
      | .success d =>
        let out := workerRun rest
        (d :: out.1, out.2)
      | .failure e => ([], some (.errored e))
    else ([], some .stopped)

/-- How many assembly cycles the worker actually runs on a schedule: a cycle
runs whenever the loop-top load saw `true` (a failing cycle still ran). -/
def cyclesRun : List (Bool × CycleResult) → ℕ
  | [] => 0
  | (f, r) :: rest =>
    if f then
      match r with
      | .success _ => cyclesRun rest + 1
      | .failure _ => 1
    else 0

/-- The lifecycle state of `AirControl`: the `running` atomic flag and the
`monitoring_thread: Option<JoinHandle<()>>` slot (only its presence is
observable to the lifecycle). -/
structure AirControl where
  running : Bool
  monitoring_thread : Option Unit
deriving DecidableEq

/-- `AirControl::new()`: after a successful open, `running` is initialised
to `true` and no worker exists yet. -/
def AirControl.new : AirControl := ⟨true, none⟩

/-- `AirControl::start_monitoring`: spawns the worker thread and stores its
handle.  Note the source does NOT touch `running` here — the flag keeps
whatever value it had (set `true` by `new()`, or `false` by an earlier
`stop_monitoring`). -/
def start_monitoring (c : AirControl) : AirControl :=
  { c with monitoring_thread := some () }

/-- `AirControl::stop_monitoring`: store `false` into `running`, then
`take()` the handle and `join()` it when present (joining is the blocking
synchronisation; on the pure state it clears the handle). -/
def stop_monitoring (c : AirControl) : AirControl :=
  let c1 : AirControl := { c with running := false }
  match c1.monitoring_thread with
  | some _ => { c1 with monitoring_thread := none }
  | none => c1

/-- The snapshots a worker spawned in controller state `c` dispatches, in a
schedule where the device yields `results` and no controller call intervenes
before they are consumed: every loop-top load of `running` returns the value
the flag had at spawn time. -/
def workerDispatches (c : AirControl) (results : List CycleResult) : List DeviceData :=
  (workerRun (results.map (fun r => (c.running, r)))).1

/-- A caller-thread action: `start results` is `start_monitoring` after
which the device yields `results` to the worker before the next call;
`stop` is `stop_monitoring`. -/
inductive Call where
  | start (results : List CycleResult)
  | stop

/-- Run a sequence of caller actions on the controller, collecting each
worker lifetime's dispatched snapshots. -/
def runCalls : AirControl → List Call → AirControl × List (List DeviceData)
  | c, [] => (c, [])
  | c, .start results :: rest =>
    let out := runCalls (start_monitoring c) rest
    (out.1, workerDispatches c results :: out.2)
  | c, .stop :: rest => runCalls (stop_monitoring c) rest

/-- An observer is identified by an opaque id (the boxed closure itself is
not observable; dispatch order and received values are). -/
abbrev CallbackId := ℕ

/-- One observer invocation `cb(data.time, data.co2, data.temperature,
data.humidity)`: which callback ran and the four scalar values it got. -/
structure Invocation where
  cb : CallbackId
  time : ℕ
  co2 : ℕ
  temperature : ℚ
  humidity : ℚ
deriving DecidableEq

/-- `AirControl::register_callback`: `cbs.push(callback)` appends to the
end of the locked list. -/
def register_callback (cbs : List CallbackId) (cb : CallbackId) : List CallbackId :=
  cbs ++ [cb]

/-- The dispatch loop `for cb in cbs.iter() { cb(...) }` the worker runs on
a successful cycle: every currently registered callback is invoked, in list
order, with the snapshot's four scalar fields. -/
def dispatch (cbs : List CallbackId) (d : DeviceData) : List Invocation :=
  cbs.map (fun cb => ⟨cb, d.time, d.co2, d.temperature, d.humidity⟩)

/-- An action touching the observer registry: a `register_callback` call or
a dispatch of a completed snapshot (both take the `callbacks` mutex, so a
run is a sequence of these). -/
inductive RegOp where
  | register (cb : CallbackId)
  | emit (d : DeviceData)

/-- Run a sequence of registry actions: returns the final registry and the
log of observer invocations in execution order. -/
def runRegOps : List CallbackId → List RegOp → List CallbackId × List Invocation
  | cbs, [] => (cbs, [])
  | cbs, .register cb :: rest => runRegOps (register_callback cbs cb) rest
  | cbs, .emit d :: rest =>
    let out := runRegOps cbs rest
    (out.1, dispatch cbs d ++ out.2)

/-- The callbacks registered by a sequence of registry actions, in order. -/
def regsOf (ops : List RegOp) : List CallbackId :=
  ops.filterMap (fun op => match op with | .register cb => some cb | .emit _ => none)

/-- The snapshots dispatched by a sequence of registry actions, in order. -/
def emitsOf (ops : List RegOp) : List DeviceData :=
  ops.filterMap (fun op => match op with | .register _ => none | .emit d => some d)

/-- Whether a transport outcome is a timeout (`Ok(0)` from hidapi). -/
def isTimeout : ReadEvent → Bool
  | .timeout => true
  | _ => false

/-- The pure accumulation of a list of reports into the assembly state,
with no early exit: `read_data` agrees with this fold on the prefix of
reports it consumes. -/
def accFold (st : AccState) (bufs : List (List Byte)) : AccState :=
  bufs.foldl stepBuf st

/-- The decoded 16-bit value of the last report in `bufs` carrying tag `t`,
if any: the value that survives the overwrite semantics of one cycle. -/
def lastValueFor (t : Byte) (bufs : List (List Byte)) : Option ℕ :=
  (bufs.reverse.find? (fun b => tagOf b == t)).map valueOf

/-- Characterisation of `Int.log 2` from an explicit bracketing binade. -/
lemma log2_eq_of {q : ℚ} {e : ℤ} (h0 : 0 < q) (h1 : 2 ^ e ≤ q) (h2 : q < 2 ^ (e + 1)) :
    Int.log 2 q = e := by
  have hb : 1 < 2 := by norm_num
  have hle : e ≤ Int.log 2 q := by
    rw [← Int.zpow_le_iff_le_log hb h0]
    exact_mod_cast h1
  have hlt : Int.log 2 q < e + 1 := by
    rw [← Int.lt_zpow_iff_log_lt hb h0]
    exact_mod_cast h2
  omega

/-- Unfold `rhe` once the floor of the argument is known. -/
lemma rhe_eq_of {q : ℚ} {f : ℤ} (hf : ⌊q⌋ = f) :
    rhe q = if q - f < 1/2 then f else if q - f > 1/2 then f + 1
      else if f % 2 = 0 then f else f + 1 := by
  simp only [rhe, hf]

/-- Unfold `fl32` once the binade exponent of the argument is known. -/
lemma fl32_eq_of {q : ℚ} {e : ℤ} (hq : q ≠ 0) (he : Int.log 2 |q| = e) :
    fl32 q = (rhe (q * 2 ^ (23 - e)) : ℚ) / 2 ^ (23 - e) := by
  simp only [fl32, hq, if_false, he]

/-- `rhe` lands within half a unit of its argument. -/
lemma rhe_close (q : ℚ) : |(rhe q : ℚ) - q| ≤ 1 / 2 := by
  have h1 : (⌊q⌋ : ℚ) ≤ q := Int.floor_le q
  have h2 : q < ⌊q⌋ + 1 := Int.lt_floor_add_one q
  rw [rhe_eq_of rfl]
  split
  · rw [abs_le]; constructor <;> linarith
  · split
    · push_cast
      rw [abs_le]; constructor <;> linarith
    · split
      · rw [abs_le]; constructor <;> linarith
      · push_cast
        rw [abs_le]; constructor <;> linarith

/-- `rhe` of a nonnegative rational is nonnegative. -/
lemma rhe_nonneg {q : ℚ} (h : 0 ≤ q) : 0 ≤ rhe q := by
  have h1 : (0 : ℤ) ≤ ⌊q⌋ := Int.floor_nonneg.mpr h
  rw [rhe_eq_of rfl]
  split
  · exact h1
  · split
    · omega
    · split
      · exact h1
      · omega

lemma fl32_zero : fl32 0 = 0 := by simp [fl32]

/-- The `binary32` rounding has relative error at most `2 ^ (-24)`:
`|fl32 q - q| ≤ |q| / 2 ^ 24` for every rational (the program's quantities
are all far from the subnormal range, so this models `f32` exactly). -/
lemma fl32_close (q : ℚ) : |fl32 q - q| ≤ |q| / 2 ^ 24 := by
  by_cases hq : q = 0
  · simp [hq, fl32_zero]
  · have habs : 0 < |q| := abs_pos.mpr hq
    set e := Int.log 2 |q| with hedef
    have h2e : (2 : ℚ) ^ e ≤ |q| := by
      have hx : ((2 : ℕ) : ℚ) ^ Int.log 2 |q| ≤ |q| :=
        Int.zpow_log_le_self (by norm_num) habs
      simpa using hx
    have hs : (0 : ℚ) < 2 ^ (23 - e) := by positivity
    have hfl : fl32 q = (rhe (q * 2 ^ (23 - e)) : ℚ) / 2 ^ (23 - e) :=
      fl32_eq_of hq rfl
    have hdiff : fl32 q - q
        = ((rhe (q * 2 ^ (23 - e)) : ℚ) - q * 2 ^ (23 - e)) / 2 ^ (23 - e) := by
      rw [hfl]; field_simp; ring
    have hnum : |(rhe (q * 2 ^ (23 - e)) : ℚ) - q * 2 ^ (23 - e)| ≤ 1 / 2 :=
      rhe_close _
    have hval : (1 : ℚ) / 2 / 2 ^ (23 - e) = 2 ^ (e - 24) := by
      rw [div_eq_iff (ne_of_gt hs), ← zpow_add₀ (two_ne_zero : (2:ℚ) ≠ 0)]
      norm_num
    calc |fl32 q - q| = |(rhe (q * 2 ^ (23 - e)) : ℚ) - q * 2 ^ (23 - e)| / 2 ^ (23 - e) := by
          rw [hdiff, abs_div, abs_of_pos hs]
      _ ≤ (1 / 2) / 2 ^ (23 - e) := by gcongr
      _ = 2 ^ (e - 24) := hval
      _ = 2 ^ e / 2 ^ (24 : ℤ) := zpow_sub₀ (two_ne_zero : (2:ℚ) ≠ 0) _ _
      _ ≤ |q| / 2 ^ (24 : ℤ) := by gcongr
      _ = |q| / 2 ^ 24 := by norm_num

/-- Crude but sufficient magnitude bound for `fl32`. -/
lemma fl32_le_twice (q : ℚ) : |fl32 q| ≤ 2 * |q| := by
  have h1 := fl32_close q
  have h2 : |q| / 2 ^ 24 ≤ |q| := by
    rw [div_le_iff₀ (by positivity : (0:ℚ) < 2 ^ 24)]
    nlinarith [abs_nonneg q]
  calc |fl32 q| = |(fl32 q - q) + q| := by ring_nf
    _ ≤ |fl32 q - q| + |q| := abs_add _ _
    _ ≤ |q| / 2 ^ 24 + |q| := by linarith
    _ ≤ 2 * |q| := by linarith

/-- `fl32` preserves nonnegativity. -/
lemma fl32_nonneg {q : ℚ} (h : 0 ≤ q) : 0 ≤ fl32 q := by
  have h1 := fl32_close q
  rw [abs_of_nonneg h] at h1
  have h2 := (abs_le.mp h1).1
  nlinarith

/-- `round2` output magnitude bound. -/
lemma round2_abs (q : ℚ) : |round2 q| ≤ |q| + 1 := by
  have h1 := rhe_close (q * 100)
  unfold round2
  rw [abs_div]
  have h100 : |(100 : ℚ)| = 100 := by norm_num
  rw [h100, div_le_iff₀ (by norm_num : (0:ℚ) < 100)]
  have hqm : |q * 100| = |q| * 100 := by
    rw [abs_mul, h100]
  calc |(rhe (q * 100) : ℚ)| = |(rhe (q * 100) : ℚ) - q * 100 + q * 100| := by ring_nf
    _ ≤ |(rhe (q * 100) : ℚ) - q * 100| + |q * 100| := abs_add _ _
    _ ≤ 1 / 2 + |q| * 100 := by rw [hqm]; linarith
    _ ≤ (|q| + 1) * 100 := by linarith

/-- `round2` preserves nonnegativity. -/
lemma round2_nonneg {q : ℚ} (h : 0 ≤ q) : 0 ≤ round2 q := by
  unfold round2
  have hx := rhe_nonneg (show (0 : ℚ) ≤ q * 100 by positivity)
  positivity

/-- The `f32` nearest `273.15` is `8950579 / 32768 = 273.149993896484375`
(just below the exact decimal). -/
lemma c273_15_eval : c273_15 = 8950579 / 32768 := by
  have he : Int.log 2 |(27315 / 100 : ℚ)| = 8 := by
    rw [abs_of_pos (by norm_num)]
    exact log2_eq_of (by norm_num) (by norm_num) (by norm_num)
  have hfl : ⌊(27315 / 100 : ℚ) * 2 ^ ((23 : ℤ) - 8)⌋ = 8950579 := by
    rw [Int.floor_eq_iff]
    norm_num
  rw [c273_15, fl32_eq_of (by norm_num) he, rhe_eq_of hfl]
  norm_num

/-- `4881 as f32 / 16.0` is exact: `305.0625`. -/
lemma fl32_4881_div_16 : fl32 ((4881 : ℚ) / 16) = 4881 / 16 := by
  have he : Int.log 2 |(4881 / 16 : ℚ)| = 8 := by
    rw [abs_of_pos (by norm_num)]
    exact log2_eq_of (by norm_num) (by norm_num) (by norm_num)
  have hfl : ⌊(4881 / 16 : ℚ) * 2 ^ ((23 : ℤ) - 8)⌋ = 9996288 := by
    rw [Int.floor_eq_iff]
    norm_num
  rw [fl32_eq_of (by norm_num) he, rhe_eq_of hfl]
  norm_num

/-- The `f32` subtraction `305.0625 - 273.149993896484375` is exact:
`1045709 / 32768 = 31.912506103515625`. -/
lemma fl32_temp_diff : fl32 ((1045709 : ℚ) / 32768) = 1045709 / 32768 := by
  have he : Int.log 2 |(1045709 / 32768 : ℚ)| = 4 := by
    rw [abs_of_pos (by norm_num)]
    exact log2_eq_of (by norm_num) (by norm_num) (by norm_num)
  have hfl : ⌊(1045709 / 32768 : ℚ) * 2 ^ ((23 : ℤ) - 4)⌋ = 16731344 := by
    rw [Int.floor_eq_iff]
    norm_num
  rw [fl32_eq_of (by norm_num) he, rhe_eq_of hfl]
  norm_num

/-- The decoded temperature of raw value `4881` (`0x1311`) is `31.91`:
the exact `f32` computation gives `31.912506103515625`, which `{:.2}`
renders as `"31.91"` — not the `31.89` the specification computes. -/
lemma tempConv_4881 : tempConv 4881 = 3191 / 100 := by
  have hcast : ((4881 : ℕ) : ℚ) = 4881 := by norm_num
  have hdiff : (4881 : ℚ) / 16 - c273_15 = 1045709 / 32768 := by
    rw [c273_15_eval]; norm_num
  have hfl : ⌊(1045709 / 32768 : ℚ) * 100⌋ = 3191 := by
    rw [Int.floor_eq_iff]
    norm_num
  rw [tempConv, hcast, fl32_4881_div_16, hdiff, fl32_temp_diff, round2, rhe_eq_of hfl]
  norm_num

/-- The decoded humidity of raw value `5000` is exactly `50`. -/
lemma humConv_5000 : humConv 5000 = 50 := by
  have hcast : ((5000 : ℕ) : ℚ) = 5000 := by norm_num
  have he : Int.log 2 |(5000 / 100 : ℚ)| = 5 := by
    rw [abs_of_pos (by norm_num)]
    exact log2_eq_of (by norm_num) (by norm_num) (by norm_num)
  have hfl : ⌊(5000 / 100 : ℚ) * 2 ^ ((23 : ℤ) - 5)⌋ = 13107200 := by
    rw [Int.floor_eq_iff]
    norm_num
  have h1 : fl32 ((5000 : ℚ) / 100) = 50 := by
    rw [fl32_eq_of (by norm_num) he, rhe_eq_of hfl]
    norm_num
  have hfl2 : ⌊(50 : ℚ) * 100⌋ = 5000 := by
    rw [Int.floor_eq_iff]
    norm_num
  rw [humConv, hcast, h1, round2, rhe_eq_of hfl2]
  norm_num

/-- The loop returns through `finish` as soon as the state is complete,
without consuming an event. -/
lemma readDataLoop_of_complete {st : AccState} (h : st.complete = true)
    (now : ℕ) (evs : List ReadEvent) :
    readDataLoop now evs st = (finish now st, evs) := by
  cases evs with
  | nil => simp [readDataLoop, h]
  | cons ev rest => cases ev <;> simp [readDataLoop, h]

/-- A complete state has all three fields set, and `finish` assembles them. -/
lemma complete_fields {st : AccState} (h : st.complete = true) :
    ∃ c t hu, st.co2 = some c ∧ st.temperature = some t ∧ st.humidity = some hu ∧
      ∀ now, finish now st = .ok ⟨now, c, t, hu⟩ := by
  obtain ⟨b, c, t, hu⟩ := st
  cases c with
  | none => simp [AccState.complete] at h
  | some c =>
    cases t with
    | none => simp [AccState.complete] at h
    | some t =>
      cases hu with
      | none => simp [AccState.complete] at h
      | some hu => exact ⟨c, t, hu, rfl, rfl, rfl, fun _ => rfl⟩

/-- The assembly loop can never reach the `panic` marker: whenever the
`while` guard lets execution fall through to the final `unwrap()` calls,
all three options are `some`. -/
lemma readDataLoop_ne_panic (now : ℕ) : ∀ (evs : List ReadEvent) (st : AccState),
    (readDataLoop now evs st).1 ≠ .panic := by
  intro evs
  induction evs with
  | nil =>
    intro st
    by_cases h : st.complete = true
    · obtain ⟨c, t, hu, _, _, _, hfin⟩ := complete_fields h
      simp [readDataLoop, h, hfin now]
    · simp [readDataLoop, h]
  | cons ev rest ih =>
    intro st
    by_cases h : st.complete = true
    · rw [readDataLoop_of_complete h]
      obtain ⟨c, t, hu, _, _, _, hfin⟩ := complete_fields h
      simp [hfin now]
    · cases ev with
      | report b => simpa [readDataLoop, h] using ih (stepBuf st b)
      | timeout => simpa [readDataLoop, h] using ih (decodeUpdate st)
      | fail e => simp [readDataLoop, h]

/-- Decoding never touches the buffer. -/
lemma decodeUpdate_buf (st : AccState) : (decodeUpdate st).buf = st.buf := by
  simp only [decodeUpdate]
  split_ifs <;> rfl

/-- Effect of one decoded report on the `co2` field. -/
lemma stepBuf_co2 (st : AccState) (b : List Byte) :
    (stepBuf st b).co2 = if tagOf b = CO2_ADDRESS then some (valueOf b) else st.co2 := by
  simp only [stepBuf, decodeUpdate]
  split_ifs with h1 h2 h3 <;> simp_all

/-- Effect of one decoded report on the `temperature` field. -/
lemma stepBuf_temperature (st : AccState) (b : List Byte) :
    (stepBuf st b).temperature
      = if tagOf b = TEMPERATURE_ADDRESS then some (tempConv (valueOf b)) else st.temperature := by
  simp only [stepBuf, decodeUpdate]
  split_ifs with h1 h2 h3 <;> simp_all <;> simp_all [CO2_ADDRESS, TEMPERATURE_ADDRESS]

/-- Effect of one decoded report on the `humidity` field. -/
lemma stepBuf_humidity (st : AccState) (b : List Byte) :
    (stepBuf st b).humidity
      = if tagOf b = HUMIDITY_ADDRESS then some (humConv (valueOf b)) else st.humidity := by
  simp only [stepBuf, decodeUpdate]
  split_ifs with h1 h2 h3 <;> simp_all <;>
    simp_all [CO2_ADDRESS, TEMPERATURE_ADDRESS, HUMIDITY_ADDRESS]

/-- `Option.map` distributes over `Option.or`. -/
lemma optionMapOr {α β : Type} (f : α → β) (o1 o2 : Option α) :
    (o1.or o2).map f = (o1.map f).or (o2.map f) := by
  cases o1 <;> rfl

/-- Unfolding `lastValueFor` over a leading report: the last value for a
tag comes from the tail when the tail holds the tag, otherwise from the
head report. -/
lemma lastValueFor_cons (t : Byte) (b : List Byte) (bs : List (List Byte)) :
    lastValueFor t (b :: bs) =
      (lastValueFor t bs).or (if tagOf b = t then some (valueOf b) else none) := by
  simp only [lastValueFor, List.reverse_cons, List.find?_append, optionMapOr]
  by_cases htag : tagOf b = t
  · simp [List.find?, htag]
  · have hb : (tagOf b == t) = false := by simp [htag]
    simp [List.find?, hb, htag]

/-- The `co2` field of the no-early-exit fold: the last `0x50` report wins,
else the field keeps its starting value. -/
lemma accFold_co2 : ∀ (bufs : List (List Byte)) (st : AccState),
    (accFold st bufs).co2 = (lastValueFor CO2_ADDRESS bufs).or st.co2 := by
  intro bufs
  induction bufs with
  | nil => intro st; simp [accFold, lastValueFor]
  | cons b bs ih =>
    intro st
    show (accFold (stepBuf st b) bs).co2 = _
    rw [ih, lastValueFor_cons, stepBuf_co2]
    rcases hfind : lastValueFor CO2_ADDRESS bs with _ | v
    · by_cases htag : tagOf b = CO2_ADDRESS <;> simp [htag]
    · simp

/-- The `temperature` field of the fold: the last `0x42` report wins. -/
lemma accFold_temperature : ∀ (bufs : List (List Byte)) (st : AccState),
    (accFold st bufs).temperature
      = ((lastValueFor TEMPERATURE_ADDRESS bufs).map tempConv).or st.temperature := by
  intro bufs
  induction bufs with
  | nil => intro st; simp [accFold, lastValueFor]
  | cons b bs ih =>
    intro st
    show (accFold (stepBuf st b) bs).temperature = _
    rw [ih, lastValueFor_cons, stepBuf_temperature, optionMapOr]
    rcases hfind : lastValueFor TEMPERATURE_ADDRESS bs with _ | v
    · by_cases htag : tagOf b = TEMPERATURE_ADDRESS <;> simp [htag]
    · simp

/-- The `humidity` field of the fold: the last `0x41` report wins. -/
lemma accFold_humidity : ∀ (bufs : List (List Byte)) (st : AccState),
    (accFold st bufs).humidity
      = ((lastValueFor HUMIDITY_ADDRESS bufs).map humConv).or st.humidity := by
  intro bufs
  induction bufs with
  | nil => intro st; simp [accFold, lastValueFor]
  | cons b bs ih =>
    intro st
    show (accFold (stepBuf st b) bs).humidity = _
    rw [ih, lastValueFor_cons, stepBuf_humidity, optionMapOr]
    rcases hfind : lastValueFor HUMIDITY_ADDRESS bs with _ | v
    · by_cases htag : tagOf b = HUMIDITY_ADDRESS <;> simp [htag]
    · simp

/-- Coverage: each of the three fields is either already set in the state
or supplied by some report of the list. -/
def covers (st : AccState) (bufs : List (List Byte)) : Prop :=
  (st.co2.isSome = true ∨ ∃ b ∈ bufs, tagOf b = CO2_ADDRESS) ∧
  (st.temperature.isSome = true ∨ ∃ b ∈ bufs, tagOf b = TEMPERATURE_ADDRESS) ∧
  (st.humidity.isSome = true ∨ ∃ b ∈ bufs, tagOf b = HUMIDITY_ADDRESS)

/-- On a schedule of reports, a successful assembly is the `finish` of the
pure fold over the consumed prefix, and the unconsumed suffix is returned. -/
lemma loop_report_ok (now : ℕ) : ∀ (bufs : List (List Byte)) (st : AccState) (d : DeviceData)
    (rest : List ReadEvent),
    readDataLoop now (bufs.map .report) st = (.ok d, rest) →
    ∃ pre post, bufs = pre ++ post ∧ rest = post.map .report ∧
      finish now (accFold st pre) = .ok d := by
  intro bufs
  induction bufs with
  | nil =>
    intro st d rest h
    by_cases hc : st.complete = true
    · rw [List.map_nil, readDataLoop_of_complete hc] at h
      obtain ⟨h1, h2⟩ := Prod.mk.injEq .. ▸ h
      exact ⟨[], [], rfl, by simp [h2.symm], h1⟩
    · simp [readDataLoop, hc] at h
  | cons b bs ih =>
    intro st d rest h
    by_cases hc : st.complete = true
    · rw [readDataLoop_of_complete hc] at h
      obtain ⟨h1, h2⟩ := Prod.mk.injEq .. ▸ h
      exact ⟨[], b :: bs, rfl, h2.symm, h1⟩
    · have hstep : readDataLoop now ((b :: bs).map .report) st
          = readDataLoop now (bs.map .report) (stepBuf st b) := by
        simp [readDataLoop, hc]
      rw [hstep] at h
      obtain ⟨pre, post, hsplit, hrest, hfin⟩ := ih _ _ _ h
      exact ⟨b :: pre, post, by simp [hsplit], hrest, hfin⟩

/-- If the three tags are covered, the assembly on a schedule of reports
succeeds. -/
lemma covers_ok (now : ℕ) : ∀ (bufs : List (List Byte)) (st : AccState),
    covers st bufs →
    ∃ d rest, readDataLoop now (bufs.map .report) st = (.ok d, rest) := by
  intro bufs
  induction bufs with
  | nil =>
    intro st hcov
    have hc : st.complete = true := by
      obtain ⟨h1, h2, h3⟩ := hcov
      simp only [List.not_mem_nil, false_and, exists_false, or_false] at h1 h2 h3
      simp [AccState.complete, h1, h2, h3]
    obtain ⟨c, t, hu, _, _, _, hfin⟩ := complete_fields hc
    exact ⟨_, _, by rw [List.map_nil, readDataLoop_of_complete hc, hfin now]⟩
  | cons b bs ih =>
    intro st hcov
    by_cases hc : st.complete = true
    · obtain ⟨c, t, hu, _, _, _, hfin⟩ := complete_fields hc
      exact ⟨_, _, by rw [readDataLoop_of_complete hc, hfin now]⟩
    · have hstep : readDataLoop now ((b :: bs).map .report) st
          = readDataLoop now (bs.map .report) (stepBuf st b) := by
        simp [readDataLoop, hc]
      rw [hstep]
      apply ih
      obtain ⟨h1, h2, h3⟩ := hcov
      refine ⟨?_, ?_, ?_⟩
      · rcases h1 with h1 | ⟨b', hb', ht'⟩
        · left; rw [stepBuf_co2]; split <;> simp_all
        · rcases List.mem_cons.mp hb' with rfl | hmem
          · left; rw [stepBuf_co2, if_pos ht']; rfl
          · by_cases htag : tagOf b = CO2_ADDRESS
            · left; rw [stepBuf_co2, if_pos htag]; rfl
            · right; exact ⟨b', hmem, ht'⟩
      · rcases h2 with h2 | ⟨b', hb', ht'⟩
        · left; rw [stepBuf_temperature]; split <;> simp_all
        · rcases List.mem_cons.mp hb' with rfl | hmem
          · left; rw [stepBuf_temperature, if_pos ht']; rfl
          · by_cases htag : tagOf b = TEMPERATURE_ADDRESS
            · left; rw [stepBuf_temperature, if_pos htag]; rfl
            · right; exact ⟨b', hmem, ht'⟩
      · rcases h3 with h3 | ⟨b', hb', ht'⟩
        · left; rw [stepBuf_humidity]; split <;> simp_all
        · rcases List.mem_cons.mp hb' with rfl | hmem
          · left; rw [stepBuf_humidity, if_pos ht']; rfl
          · by_cases htag : tagOf b = HUMIDITY_ADDRESS
            · left; rw [stepBuf_humidity, if_pos htag]; rfl
            · right; exact ⟨b', hmem, ht'⟩

/-- Conversely, a successful assembly on a schedule of reports means every
tag was covered. -/
lemma ok_covers (now : ℕ) (bufs : List (List Byte)) (st : AccState) (d : DeviceData)
    (rest : List ReadEvent)
    (h : readDataLoop now (bufs.map .report) st = (.ok d, rest)) :
    covers st bufs := by
  obtain ⟨pre, post, hsplit, hrest, hfin⟩ := loop_report_ok now bufs st d rest h
  have hok : (accFold st pre).complete = true := by
    rcases hcomp : (accFold st pre).co2 with _ | c
    · rcases hfin2 : (accFold st pre).temperature with _ | t <;>
        rcases hfin3 : (accFold st pre).humidity with _ | u <;>
        simp [finish, hcomp, hfin2, hfin3] at hfin
    · rcases hfin2 : (accFold st pre).temperature with _ | t
      · simp [finish, hcomp, hfin2] at hfin
      · rcases hfin3 : (accFold st pre).humidity with _ | u
        · simp [finish, hcomp, hfin2, hfin3] at hfin
        · simp [AccState.complete, hcomp, hfin2, hfin3]
  have hsub : ∀ b, b ∈ pre → b ∈ bufs := by
    intro b hb; rw [hsplit]; exact List.mem_append_left _ hb
  have hco2 := accFold_co2 pre st
  have htemp := accFold_temperature pre st
  have hhum := accFold_humidity pre st
  simp only [AccState.complete, Bool.and_eq_true] at hok
  obtain ⟨⟨hs1, hs2⟩, hs3⟩ := hok
  refine ⟨?_, ?_, ?_⟩
  · rw [hco2] at hs1
    rcases hlast : lastValueFor CO2_ADDRESS pre with _ | v
    · left; rw [hlast] at hs1; simpa using hs1
    · right
      obtain ⟨x, hfind⟩ : ∃ x, pre.reverse.find? (fun b => tagOf b == CO2_ADDRESS) = some x := by
        rcases hf : pre.reverse.find? (fun b => tagOf b == CO2_ADDRESS) with _ | x
        · rw [lastValueFor, hf] at hlast; simp at hlast
        · exact ⟨x, rfl⟩
      have hmem : x ∈ pre := List.mem_reverse.mp (List.mem_of_find?_eq_some hfind)
      have htag : tagOf x = CO2_ADDRESS := by
        have := List.find?_some hfind
        simpa using this
      exact ⟨x, hsub x hmem, htag⟩
  · rw [htemp] at hs2
    rcases hlast : lastValueFor TEMPERATURE_ADDRESS pre with _ | v
    · left; rw [hlast] at hs2; simpa using hs2
    · right
      obtain ⟨x, hfind⟩ : ∃ x, pre.reverse.find? (fun b => tagOf b == TEMPERATURE_ADDRESS) = some x := by
        rcases hf : pre.reverse.find? (fun b => tagOf b == TEMPERATURE_ADDRESS) with _ | x
        · rw [lastValueFor, hf] at hlast; simp at hlast
        · exact ⟨x, rfl⟩
      have hmem : x ∈ pre := List.mem_reverse.mp (List.mem_of_find?_eq_some hfind)
      have htag : tagOf x = TEMPERATURE_ADDRESS := by
        have := List.find?_some hfind
        simpa using this
      exact ⟨x, hsub x hmem, htag⟩
  · rw [hhum] at hs3
    rcases hlast : lastValueFor HUMIDITY_ADDRESS pre with _ | v
    · left; rw [hlast] at hs3; simpa using hs3
    · right
      obtain ⟨x, hfind⟩ : ∃ x, pre.reverse.find? (fun b => tagOf b == HUMIDITY_ADDRESS) = some x := by
        rcases hf : pre.reverse.find? (fun b => tagOf b == HUMIDITY_ADDRESS) with _ | x
        · rw [lastValueFor, hf] at hlast; simp at hlast
        · exact ⟨x, rfl⟩
      have hmem : x ∈ pre := List.mem_reverse.mp (List.mem_of_find?_eq_some hfind)
      have htag : tagOf x = HUMIDITY_ADDRESS := by
        have := List.find?_some hfind
        simpa using this
      exact ⟨x, hsub x hmem, htag⟩

/-- Inversion of `finish`: a built snapshot carries exactly the accumulated
fields and the completion clock. -/
lemma finish_ok_inv {now : ℕ} {st : AccState} {d : DeviceData}
    (h : finish now st = .ok d) :
    st.co2 = some d.co2 ∧ st.temperature = some d.temperature ∧
      st.humidity = some d.humidity ∧ d.time = now := by
  rcases hc : st.co2 with _ | c
  · rcases ht : st.temperature with _ | t <;> rcases hh : st.humidity with _ | u <;>
      simp [finish, hc, ht, hh] at h
  · rcases ht : st.temperature with _ | t
    · rcases hh : st.humidity with _ | u <;> simp [finish, hc, ht, hh] at h
    · rcases hh : st.humidity with _ | u
      · simp [finish, hc, ht, hh] at h
      · simp only [finish, hc, ht, hh, ReadOutcome.ok.injEq] at h
        cases h
        refine ⟨?_, ?_, ?_, rfl⟩ <;> simp [hc, ht, hh]

/-- A successful `read_data` over a schedule of reports consumes a prefix
containing all three tags and returns, for each field, the decoded value of
the last consumed report with that field's tag. -/
lemma read_data_ok_fields (now : ℕ) (bufs : List (List Byte)) (d : DeviceData)
    (rest : List ReadEvent)
    (h : read_data now (bufs.map .report) = (.ok d, rest)) :
    ∃ pre post, bufs = pre ++ post ∧ rest = post.map .report ∧
      d.time = now ∧
      some d.co2 = lastValueFor CO2_ADDRESS pre ∧
      some d.temperature = (lastValueFor TEMPERATURE_ADDRESS pre).map tempConv ∧
      some d.humidity = (lastValueFor HUMIDITY_ADDRESS pre).map humConv := by
  obtain ⟨pre, post, hsplit, hrest, hfin⟩ := loop_report_ok now bufs _ d rest h
  obtain ⟨hc, ht, hh, htime⟩ := finish_ok_inv hfin
  refine ⟨pre, post, hsplit, hrest, htime, ?_, ?_, ?_⟩
  · rw [accFold_co2] at hc
    rcases hlast : lastValueFor CO2_ADDRESS pre with _ | v <;> rw [hlast] at hc
    · simp at hc
    · simpa using hc.symm
  · rw [accFold_temperature] at ht
    rcases hlast : lastValueFor TEMPERATURE_ADDRESS pre with _ | v <;> rw [hlast] at ht
    · simp at ht
    · simpa using ht.symm
  · rw [accFold_humidity] at hh
    rcases hlast : lastValueFor HUMIDITY_ADDRESS pre with _ | v <;> rw [hlast] at hh
    · simp at hh
    · simpa using hh.symm

/-- The last report of a given tag among a prefix of `bufs` is the unique
report of that tag in `bufs`, when there is exactly one. -/
lemma lastValueFor_of_unique {t : Byte} {bufs pre post : List (List Byte)} {b0 : List Byte}
    (hfilter : bufs.filter (fun b => tagOf b == t) = [b0])
    (hsplit : bufs = pre ++ post) {v : ℕ}
    (hlast : lastValueFor t pre = some v) : v = valueOf b0 := by
  obtain ⟨x, hfind⟩ : ∃ x, pre.reverse.find? (fun b => tagOf b == t) = some x := by
    rcases hf : pre.reverse.find? (fun b => tagOf b == t) with _ | x
    · rw [lastValueFor, hf] at hlast; simp at hlast
    · exact ⟨x, rfl⟩
  have hval : valueOf x = v := by
    rw [lastValueFor, hfind] at hlast; simpa using hlast
  have hmem : x ∈ bufs := by
    rw [hsplit]
    exact List.mem_append_left _ (List.mem_reverse.mp (List.mem_of_find?_eq_some hfind))
  have htag : tagOf x = t := by
    have := List.find?_some hfind
    simpa using this
  have : x ∈ bufs.filter (fun b => tagOf b == t) :=
    List.mem_filter.mpr ⟨hmem, by simpa using htag⟩
  rw [hfilter] at this
  rw [← hval, List.mem_singleton.mp this]

/-- With exactly one report per known tag, `read_data` succeeds and the
snapshot's fields are the decoded values of those three reports — whatever
the order in which the reports arrive. -/
lemma read_data_one_each (now : ℕ) (bufs : List (List Byte)) (b50 b42 b41 : List Byte)
    (h50 : bufs.filter (fun b => tagOf b == CO2_ADDRESS) = [b50])
    (h42 : bufs.filter (fun b => tagOf b == TEMPERATURE_ADDRESS) = [b42])
    (h41 : bufs.filter (fun b => tagOf b == HUMIDITY_ADDRESS) = [b41]) :
    ∃ rest, read_data now (bufs.map .report)
      = (.ok ⟨now, valueOf b50, tempConv (valueOf b42), humConv (valueOf b41)⟩, rest) := by
  have hmem50 : b50 ∈ bufs ∧ tagOf b50 = CO2_ADDRESS := by
    have : b50 ∈ bufs.filter (fun b => tagOf b == CO2_ADDRESS) := by simp [h50]
    have h2 := List.mem_filter.mp this
    exact ⟨h2.1, by simpa using h2.2⟩
  have hmem42 : b42 ∈ bufs ∧ tagOf b42 = TEMPERATURE_ADDRESS := by
    have : b42 ∈ bufs.filter (fun b => tagOf b == TEMPERATURE_ADDRESS) := by simp [h42]
    have h2 := List.mem_filter.mp this
    exact ⟨h2.1, by simpa using h2.2⟩
  have hmem41 : b41 ∈ bufs ∧ tagOf b41 = HUMIDITY_ADDRESS := by
    have : b41 ∈ bufs.filter (fun b => tagOf b == HUMIDITY_ADDRESS) := by simp [h41]
    have h2 := List.mem_filter.mp this
    exact ⟨h2.1, by simpa using h2.2⟩
  obtain ⟨d, rest, hok⟩ := covers_ok now bufs ⟨List.replicate 8 0, none, none, none⟩
    ⟨Or.inr ⟨b50, hmem50.1, hmem50.2⟩, Or.inr ⟨b42, hmem42.1, hmem42.2⟩,
      Or.inr ⟨b41, hmem41.1, hmem41.2⟩⟩
  obtain ⟨pre, post, hsplit, hrest, htime, hc, ht, hh⟩ :=
    read_data_ok_fields now bufs d rest hok
  rcases hlast : lastValueFor CO2_ADDRESS pre with _ | v
  · rw [hlast] at hc
    exact absurd hc (by simp)
  rcases hlast2 : lastValueFor TEMPERATURE_ADDRESS pre with _ | v2
  · rw [hlast2] at ht
    exact absurd ht (by simp)
  rcases hlast3 : lastValueFor HUMIDITY_ADDRESS pre with _ | v3
  · rw [hlast3] at hh
    exact absurd hh (by simp)
  rw [hlast] at hc
  rw [hlast2] at ht
  rw [hlast3] at hh
  have hv : d.co2 = valueOf b50 := by
    have h5 := lastValueFor_of_unique h50 hsplit hlast
    have hdv : d.co2 = v := Option.some.inj hc
    rw [hdv, h5]
  have hv2 : d.temperature = tempConv (valueOf b42) := by
    have h5 := lastValueFor_of_unique h42 hsplit hlast2
    have hts : some d.temperature = some (tempConv v2) := ht
    rw [Option.some.inj hts, h5]
  have hv3 : d.humidity = humConv (valueOf b41) := by
    have h5 := lastValueFor_of_unique h41 hsplit hlast3
    have hts : some d.humidity = some (humConv v3) := hh
    rw [Option.some.inj hts, h5]
  refine ⟨rest, ?_⟩
  have heta : d = ⟨d.time, d.co2, d.temperature, d.humidity⟩ := rfl
  have hd : (⟨now, valueOf b50, tempConv (valueOf b42), humConv (valueOf b41)⟩ : DeviceData)
      = d := by
    rw [heta, htime, hv, hv2, hv3]
  rw [hd]
  exact hok

/-- Two assembly states with equal fields are equal. -/
lemma accState_ext {s1 s2 : AccState} (h1 : s1.buf = s2.buf) (h2 : s1.co2 = s2.co2)
    (h3 : s1.temperature = s2.temperature) (h4 : s1.humidity = s2.humidity) : s1 = s2 := by
  obtain ⟨a, b, c, d⟩ := s1
  obtain ⟨a2, b2, c2, d2⟩ := s2
  simp_all

/-- A decoded report leaves its bytes in the buffer. -/
lemma stepBuf_buf (st : AccState) (b : List Byte) : (stepBuf st b).buf = b := by
  rw [stepBuf, decodeUpdate_buf]

/-- Decoding the same buffer twice is the same as decoding it once: the
`match key` writes one field with a value computed from the buffer alone. -/
lemma stepBuf_idem (st : AccState) (b : List Byte) :
    stepBuf (stepBuf st b) b = stepBuf st b := by
  apply accState_ext
  · rw [stepBuf_buf, stepBuf_buf]
  · rw [stepBuf_co2]
    split
    · rw [stepBuf_co2]
      split
      · rfl
      · simp_all
    · rfl
  · rw [stepBuf_temperature]
    split
    · rw [stepBuf_temperature]
      split
      · rfl
      · simp_all
    · rfl
  · rw [stepBuf_humidity]
    split
    · rw [stepBuf_humidity]
      split
      · rfl
      · simp_all
    · rfl

/-- `decodeUpdate` is `stepBuf` on the state's own buffer. -/
lemma decodeUpdate_eq_stepBuf (st : AccState) : decodeUpdate st = stepBuf st st.buf := rfl

/-- Re-decoding a stale buffer, as a timeout does, is absorbed. -/
lemma decodeUpdate_idem (st : AccState) : decodeUpdate (decodeUpdate st) = decodeUpdate st := by
  rw [decodeUpdate_eq_stepBuf st, decodeUpdate_eq_stepBuf (stepBuf st st.buf), stepBuf_buf]
  exact stepBuf_idem st st.buf

/-- The state after a decoded report absorbs further decodes of the stale
buffer. -/
lemma stepBuf_stable (st : AccState) (b : List Byte) :
    decodeUpdate (stepBuf st b) = stepBuf st b :=
  decodeUpdate_idem _

/-- The fresh `read_data` state is unchanged by decoding its zeroed buffer:
tag `0x00` is unknown. -/
lemma initAcc_stable :
    decodeUpdate ⟨List.replicate 8 0, none, none, none⟩
      = (⟨List.replicate 8 0, none, none, none⟩ : AccState) := by
  decide

/-- Timeouts (`Ok(0)` reads) do not change the outcome of an assembly
cycle: re-decoding the stale buffer rewrites the same field with the same
value (or, initially, decodes the unknown tag `0x00`).  Hence a timeout is
effectively a retry, not an error. -/
lemma loop_drop_timeouts (now : ℕ) : ∀ (evs : List ReadEvent) (st : AccState),
    decodeUpdate st = st →
    (readDataLoop now (evs.filter (fun ev => !isTimeout ev)) st).1
      = (readDataLoop now evs st).1 := by
  intro evs
  induction evs with
  | nil => intro st _; rfl
  | cons ev rest ih =>
    intro st hst
    by_cases hc : st.complete = true
    · rw [readDataLoop_of_complete hc, readDataLoop_of_complete hc]
    · cases ev with
      | report b =>
        have hkeep : ((ReadEvent.report b) :: rest).filter (fun ev => !isTimeout ev)
            = .report b :: rest.filter (fun ev => !isTimeout ev) := by
          simp [List.filter_cons, isTimeout]
        rw [hkeep]
        have hL : readDataLoop now (.report b :: rest.filter (fun ev => !isTimeout ev)) st
            = readDataLoop now (rest.filter (fun ev => !isTimeout ev)) (stepBuf st b) := by
          simp [readDataLoop, hc]
        have hR : readDataLoop now (.report b :: rest) st
            = readDataLoop now rest (stepBuf st b) := by
          simp [readDataLoop, hc]
        rw [hL, hR]
        exact ih (stepBuf st b) (stepBuf_stable st b)
      | timeout =>
        have hdrop : (ReadEvent.timeout :: rest).filter (fun ev => !isTimeout ev)
            = rest.filter (fun ev => !isTimeout ev) := by
          simp [List.filter_cons, isTimeout]
        rw [hdrop]
        have hR : readDataLoop now (.timeout :: rest) st
            = readDataLoop now rest (decodeUpdate st) := by
          simp [readDataLoop, hc]
        rw [hR, hst]
        exact ih st hst
      | fail e =>
        have hkeep : ((ReadEvent.fail e) :: rest).filter (fun ev => !isTimeout ev)
            = .fail e :: rest.filter (fun ev => !isTimeout ev) := by
          simp [List.filter_cons, isTimeout]
        rw [hkeep]
        simp [readDataLoop, hc]

/-- A `pending` outcome can only arise by exhausting the schedule in an
incomplete state, and the pending state is the state reached. -/
lemma loop_pending_inv (now : ℕ) : ∀ (evs : List ReadEvent) (st st' : AccState)
    (r : List ReadEvent),
    readDataLoop now evs st = (.pending st', r) → st'.complete = false := by
  intro evs
  induction evs with
  | nil =>
    intro st st' r h
    by_cases hc : st.complete = true
    · rw [readDataLoop_of_complete hc] at h
      obtain ⟨c, t, hu, _, _, _, hfin⟩ := complete_fields hc
      rw [hfin now] at h
      simp at h
    · simp only [readDataLoop, hc] at h
      obtain ⟨h1, _⟩ := Prod.mk.injEq .. ▸ h
      rw [← ReadOutcome.pending.inj h1]
      rw [Bool.not_eq_true] at hc
      exact hc
  | cons ev rest ih =>
    intro st st' r h
    by_cases hc : st.complete = true
    · rw [readDataLoop_of_complete hc] at h
      obtain ⟨c, t, hu, _, _, _, hfin⟩ := complete_fields hc
      rw [hfin now] at h
      simp at h
    · cases ev with
      | report b =>
        have hstep : readDataLoop now (.report b :: rest) st
            = readDataLoop now rest (stepBuf st b) := by
          simp [readDataLoop, hc]
        rw [hstep] at h
        exact ih _ _ _ h
      | timeout =>
        have hstep : readDataLoop now (.timeout :: rest) st
            = readDataLoop now rest (decodeUpdate st) := by
          simp [readDataLoop, hc]
        rw [hstep] at h
        exact ih _ _ _ h
      | fail e =>
        simp [readDataLoop, hc] at h

/-- A schedule that merely leaves the loop waiting can be extended: the
loop continues into the extension from the reached state. -/
lemma loop_pending_extend (now : ℕ) : ∀ (evs1 : List ReadEvent) (st st' : AccState),
    readDataLoop now evs1 st = (.pending st', []) →
    ∀ evs2, readDataLoop now (evs1 ++ evs2) st = readDataLoop now evs2 st' := by
  intro evs1
  induction evs1 with
  | nil =>
    intro st st' h evs2
    by_cases hc : st.complete = true
    · rw [readDataLoop_of_complete hc] at h
      obtain ⟨c, t, hu, _, _, _, hfin⟩ := complete_fields hc
      rw [hfin now] at h
      simp at h
    · simp only [readDataLoop, hc] at h
      obtain ⟨h1, _⟩ := Prod.mk.injEq .. ▸ h
      rw [List.nil_append, ReadOutcome.pending.inj h1]
  | cons ev rest ih =>
    intro st st' h evs2
    by_cases hc : st.complete = true
    · rw [readDataLoop_of_complete hc] at h
      obtain ⟨c, t, hu, _, _, _, hfin⟩ := complete_fields hc
      rw [hfin now] at h
      simp at h
    · cases ev with
      | report b =>
        have hstep : readDataLoop now (.report b :: rest) st
            = readDataLoop now rest (stepBuf st b) := by
          simp [readDataLoop, hc]
        rw [hstep] at h
        have hstep2 : readDataLoop now ((.report b :: rest) ++ evs2) st
            = readDataLoop now (rest ++ evs2) (stepBuf st b) := by
          simp [readDataLoop, hc]
        rw [hstep2]
        exact ih _ _ h evs2
      | timeout =>
        have hstep : readDataLoop now (.timeout :: rest) st
            = readDataLoop now rest (decodeUpdate st) := by
          simp [readDataLoop, hc]
        rw [hstep] at h
        have hstep2 : readDataLoop now ((.timeout :: rest) ++ evs2) st
            = readDataLoop now (rest ++ evs2) (decodeUpdate st) := by
          simp [readDataLoop, hc]
        rw [hstep2]
        exact ih _ _ h evs2
      | fail e =>
        simp [readDataLoop, hc] at h

/-- Cancellation bound: if every loop-top load from position `k` onwards
returns `false`, the worker runs at most `k` cycles, and its dispatches are
exactly those of the first `k` schedule entries — nothing is dispatched at
or after the first `false` load. -/
lemma workerRun_stop_bound : ∀ (steps : List (Bool × CycleResult)) (k : ℕ),
    (∀ s ∈ steps.drop k, s.1 = false) →
    cyclesRun steps ≤ k ∧ (workerRun steps).1 = (workerRun (steps.take k)).1 := by
  intro steps
  induction steps with
  | nil => intro k _; simp [cyclesRun, workerRun]
  | cons s rest ih =>
    intro k hk
    obtain ⟨f, r⟩ := s
    cases k with
    | zero =>
      have hf : f = false := hk (f, r) (by simp)
      subst hf
      simp [cyclesRun, workerRun]
    | succ k' =>
      have hk' : ∀ s ∈ rest.drop k', s.1 = false := by
        intro s hs
        exact hk s (by simpa using hs)
      obtain ⟨ih1, ih2⟩ := ih k' hk'
      cases f with
      | false => simp [cyclesRun, workerRun]
      | true =>
        cases r with
        | success d =>
          constructor
          · have hcy : cyclesRun (((true : Bool), CycleResult.success d) :: rest)
                = cyclesRun rest + 1 := by simp [cyclesRun]
            rw [hcy]
            omega
          · have hL : (workerRun (((true : Bool), CycleResult.success d) :: rest)).1
                = d :: (workerRun rest).1 := by simp [workerRun]
            have hR : (workerRun ((((true : Bool), CycleResult.success d) :: rest).take (k' + 1))).1
                = d :: (workerRun (rest.take k')).1 := by simp [workerRun]
            rw [hL, hR, ih2]
        | failure e =>
          constructor
          · have hcy : cyclesRun (((true : Bool), CycleResult.failure e) :: rest) = 1 := by
              simp [cyclesRun]
            rw [hcy]
            omega
          · have hL : (workerRun (((true : Bool), CycleResult.failure e) :: rest)).1 = [] := by
              simp [workerRun]
            have hR : (workerRun ((((true : Bool), CycleResult.failure e) :: rest).take (k' + 1))).1
                = [] := by simp [workerRun]
            rw [hL, hR]

/-- On a failing cycle the worker dispatches nothing for that cycle,
reports the error, exits at once, and never looks at the rest of the
schedule: the cycles run are exactly the preceding successes plus the
failing one. -/
lemma workerRun_failure (ds : List DeviceData) (e : String)
    (post : List (Bool × CycleResult)) :
    workerRun (ds.map (fun d => ((true : Bool), CycleResult.success d))
        ++ ((true : Bool), CycleResult.failure e) :: post)
      = (ds, some (.errored e)) ∧
    cyclesRun (ds.map (fun d => ((true : Bool), CycleResult.success d))
        ++ ((true : Bool), CycleResult.failure e) :: post)
      = ds.length + 1 := by
  induction ds with
  | nil => simp [workerRun, cyclesRun]
  | cons d rest ih =>
    obtain ⟨ih1, ih2⟩ := ih
    constructor
    · simp only [List.map_cons, List.cons_append]
      simp [workerRun, ih1]
    · simp only [List.map_cons, List.cons_append]
      simp [cyclesRun, ih2]

/-- The controller state after `stop_monitoring` is always the same:
`running = false` and no worker handle. -/
lemma stop_monitoring_eq (c : AirControl) : stop_monitoring c = ⟨false, none⟩ := by
  rcases c with ⟨r, _ | u⟩ <;> rfl

/-- `runRegOps` splits over concatenation of action sequences. -/
lemma runRegOps_append : ∀ (l1 : List RegOp) (cbs : List CallbackId) (l2 : List RegOp),
    runRegOps cbs (l1 ++ l2)
      = ((runRegOps (runRegOps cbs l1).1 l2).1,
         (runRegOps cbs l1).2 ++ (runRegOps (runRegOps cbs l1).1 l2).2) := by
  intro l1
  induction l1 with
  | nil => intro cbs l2; simp [runRegOps]
  | cons op rest ih =>
    intro cbs l2
    cases op with
    | register cb =>
      have h1 : (RegOp.register cb :: rest) ++ l2 = RegOp.register cb :: (rest ++ l2) := rfl
      rw [h1]
      show runRegOps (register_callback cbs cb) (rest ++ l2) = _
      rw [ih (register_callback cbs cb) l2]
      rfl
    | emit d =>
      have h1 : (RegOp.emit d :: rest) ++ l2 = RegOp.emit d :: (rest ++ l2) := rfl
      rw [h1]
      show (_, dispatch cbs d ++ (runRegOps cbs (rest ++ l2)).2) = _
      rw [ih cbs l2]
      simp [runRegOps, List.append_assoc]

/-- The registry after a run is the starting registry extended, in order,
by exactly the registered callbacks: registration appends to the end. -/
lemma runRegOps_registry : ∀ (ops : List RegOp) (cbs : List CallbackId),
    (runRegOps cbs ops).1 = cbs ++ regsOf ops := by
  intro ops
  induction ops with
  | nil => intro cbs; simp [runRegOps, regsOf]
  | cons op rest ih =>
    intro cbs
    cases op with
    | register cb =>
      show (runRegOps (register_callback cbs cb) rest).1 = _
      rw [ih (register_callback cbs cb)]
      simp [register_callback, regsOf]
    | emit d =>
      show (runRegOps cbs rest).1 = _
      rw [ih cbs]
      simp [regsOf]

/-- A callback absent from the registry receives nothing from a dispatch. -/
lemma dispatch_filter_not_mem {c : CallbackId} (cbs : List CallbackId) (d : DeviceData)
    (h : c ∉ cbs) : (dispatch cbs d).filter (fun i => i.cb == c) = [] := by
  induction cbs with
  | nil => rfl
  | cons x rest ih =>
    have hx : x ≠ c := fun he => h (he ▸ List.mem_cons_self x rest)
    have hrest : c ∉ rest := fun hm => h (List.mem_cons_of_mem x hm)
    simp only [dispatch, List.map_cons, List.filter_cons]
    have hpred : ((⟨x, d.time, d.co2, d.temperature, d.humidity⟩ : Invocation).cb == c)
        = false := by simp [hx]
    rw [hpred]
    simpa [dispatch] using ih hrest

/-- A callback never registered and absent from the start receives no
invocation at all. -/
lemma log_filter_absent {c : CallbackId} : ∀ (ops : List RegOp) (cbs : List CallbackId),
    c ∉ cbs → c ∉ regsOf ops →
    (runRegOps cbs ops).2.filter (fun i => i.cb == c) = [] := by
  intro ops
  induction ops with
  | nil => intro cbs _ _; rfl
  | cons op rest ih =>
    intro cbs hc hr
    cases op with
    | register cb =>
      have hreg : regsOf (RegOp.register cb :: rest) = cb :: regsOf rest := by simp [regsOf]
      rw [hreg] at hr
      have hne : cb ≠ c := by
        intro he
        apply hr
        rw [he]
        exact List.mem_cons_self _ _
      have hr' : c ∉ regsOf rest := fun hm => hr (List.mem_cons_of_mem _ hm)
      have hc' : c ∉ register_callback cbs cb := by
        intro hm
        rcases List.mem_append.mp hm with hm | hm
        · exact hc hm
        · exact hne (List.mem_singleton.mp hm).symm
      exact ih (register_callback cbs cb) hc' hr'
    | emit d =>
      have hreg : regsOf (RegOp.emit d :: rest) = regsOf rest := by simp [regsOf]
      rw [hreg] at hr
      show (dispatch cbs d ++ (runRegOps cbs rest).2).filter (fun i => i.cb == c) = []
      rw [List.filter_append, ih cbs hc hr, dispatch_filter_not_mem cbs d hc]
      rfl

/-- A callback that sits exactly once in the registry receives exactly one
invocation per dispatch, carrying the snapshot's fields. -/
lemma dispatch_filter_once {c : CallbackId} (cbs1 cbs2 : List CallbackId) (d : DeviceData)
    (h1 : c ∉ cbs1) (h2 : c ∉ cbs2) :
    (dispatch (cbs1 ++ c :: cbs2) d).filter (fun i => i.cb == c)
      = [⟨c, d.time, d.co2, d.temperature, d.humidity⟩] := by
  have hmap : dispatch (cbs1 ++ c :: cbs2) d
      = dispatch cbs1 d ++ dispatch (c :: cbs2) d := by
    simp [dispatch]
  rw [hmap, List.filter_append, dispatch_filter_not_mem cbs1 d h1]
  have hcons : dispatch (c :: cbs2) d
      = (⟨c, d.time, d.co2, d.temperature, d.humidity⟩ : Invocation) :: dispatch cbs2 d := rfl
  rw [hcons, List.filter_cons]
  have hpred : ((⟨c, d.time, d.co2, d.temperature, d.humidity⟩ : Invocation).cb == c)
      = true := by simp
  rw [hpred]
  simp [dispatch_filter_not_mem cbs2 d h2]

/-- From the moment `c` enters the registry (exactly once, never again),
its invocations are exactly the subsequent dispatches, in order, each with
that snapshot's four scalar fields. -/
lemma log_filter_found {c : CallbackId} : ∀ (ops : List RegOp) (cbs1 cbs2 : List CallbackId),
    c ∉ cbs1 → c ∉ cbs2 → c ∉ regsOf ops →
    (runRegOps (cbs1 ++ c :: cbs2) ops).2.filter (fun i => i.cb == c)
      = (emitsOf ops).map (fun d => ⟨c, d.time, d.co2, d.temperature, d.humidity⟩) := by
  intro ops
  induction ops with
  | nil => intro cbs1 cbs2 _ _ _; rfl
  | cons op rest ih =>
    intro cbs1 cbs2 h1 h2 hr
    cases op with
    | register cb =>
      have hreg : regsOf (RegOp.register cb :: rest) = cb :: regsOf rest := by simp [regsOf]
      rw [hreg] at hr
      have hne : cb ≠ c := by
        intro he
        apply hr
        rw [he]
        exact List.mem_cons_self _ _
      have hr' : c ∉ regsOf rest := fun hm => hr (List.mem_cons_of_mem _ hm)
      have h2' : c ∉ cbs2 ++ [cb] := by
        intro hm
        rcases List.mem_append.mp hm with hm | hm
        · exact h2 hm
        · exact hne (List.mem_singleton.mp hm).symm
      have hli : register_callback (cbs1 ++ c :: cbs2) cb = cbs1 ++ c :: (cbs2 ++ [cb]) := by
        simp [register_callback]
      show (runRegOps (register_callback (cbs1 ++ c :: cbs2) cb) rest).2.filter
          (fun i => i.cb == c) = _
      rw [hli, ih cbs1 (cbs2 ++ [cb]) h1 h2' hr']
      simp [emitsOf, regsOf]
    | emit d =>
      have hreg : regsOf (RegOp.emit d :: rest) = regsOf rest := by simp [regsOf]
      rw [hreg] at hr
      show ((dispatch (cbs1 ++ c :: cbs2) d ++ (runRegOps (cbs1 ++ c :: cbs2) rest).2).filter
          (fun i => i.cb == c)) = _
      rw [List.filter_append, dispatch_filter_once cbs1 cbs2 d h1 h2,
        ih cbs1 cbs2 h1 h2 hr]
      simp [emitsOf]

/-- The worker dispatches at most one snapshot per cycle run. -/
lemma workerRun_length_le : ∀ (steps : List (Bool × CycleResult)),
    (workerRun steps).1.length ≤ cyclesRun steps := by
  intro steps
  induction steps with
  | nil => simp [workerRun, cyclesRun]
  | cons s rest ih =>
    obtain ⟨f, r⟩ := s
    cases f with
    | false => simp [workerRun, cyclesRun]
    | true =>
      cases r with
      | success d =>
        have h1 : (workerRun (((true : Bool), CycleResult.success d) :: rest)).1
            = d :: (workerRun rest).1 := by simp [workerRun]
        have h2 : cyclesRun (((true : Bool), CycleResult.success d) :: rest)
            = cyclesRun rest + 1 := by simp [cyclesRun]
        rw [h1, h2]
        simpa using ih
      | failure e => simp [workerRun, cyclesRun]

/-- The three field tags are pairwise distinct bytes. -/
lemma temp_ne_co2 : TEMPERATURE_ADDRESS ≠ CO2_ADDRESS := by decide

lemma hum_ne_co2 : HUMIDITY_ADDRESS ≠ CO2_ADDRESS := by decide

lemma hum_ne_temp : HUMIDITY_ADDRESS ≠ TEMPERATURE_ADDRESS := by decide

/-- C1 (amended): for every raw report, the decoder extracts
`tag = byte[0]` and `value = (byte[1] << 8) | byte[2]` as an unsigned
16-bit integer (at most 65535), and converts by tag: for `0x50` the value
is used as-is (bytes `[0x50, 0x01, 0x2C]` decode to gas concentration 300);
for `0x42` the temperature is `value / 16.0 - 273.15` computed in `f32` and
rounded to two decimal places — for value 4881 this is `31.91` (the exact
quotient is 31.9125, and the `f32` computation gives 31.912506…, both of
which round to 31.91, not the 31.89 the specification states); for `0x41`
the humidity is `value / 100.0` rounded to two decimal places (value 5000
decodes to 50.00). -/
theorem C1_report_decoder (st : AccState) (b : List Byte) :
    valueOf b = (b.getD 1 0).val * 256 + (b.getD 2 0).val ∧
    valueOf b ≤ 65535 ∧
    (tagOf b = CO2_ADDRESS →
      stepBuf st b = { st with buf := b, co2 := some (valueOf b) }) ∧
    (tagOf b = TEMPERATURE_ADDRESS →
      stepBuf st b = { st with buf := b, temperature := some (tempConv (valueOf b)) }) ∧
    (tagOf b = HUMIDITY_ADDRESS →
      stepBuf st b = { st with buf := b, humidity := some (humConv (valueOf b)) }) ∧
    valueOf [0x50, 0x01, 0x2C, 0, 0, 0, 0, 0] = 300 ∧
    (stepBuf st [0x50, 0x01, 0x2C, 0, 0, 0, 0, 0]).co2 = some 300 ∧
    tempConv 4881 = 3191 / 100 ∧
    humConv 5000 = 50 := by
  refine ⟨rfl, ?_, ?_, ?_, ?_, by decide, ?_, tempConv_4881, humConv_5000⟩
  · have h1 := (b.getD 1 0).isLt
    have h2 := (b.getD 2 0).isLt
    unfold valueOf
    omega
  · intro h
    simp [stepBuf, decodeUpdate, h]
  · intro h
    simp [stepBuf, decodeUpdate, h, temp_ne_co2]
  · intro h
    simp [stepBuf, decodeUpdate, h, hum_ne_co2, hum_ne_temp]
  · rw [stepBuf_co2, if_pos (by decide : tagOf [0x50, 0x01, 0x2C, 0, 0, 0, 0, 0]
      = CO2_ADDRESS)]
    decide

/-- C1 counterexample: the claim says raw value 4881 (bytes
`[0x42, 0x13, 0x11]`) decodes to temperature 31.89; the code computes
4881/16.0 − 273.15 = 31.912506… in `f32` and `{:.2}` renders 31.91. -/
theorem C1_temp_4881_not_31_89 :
    tempConv 4881 = 3191 / 100 ∧ ¬ tempConv 4881 = 3189 / 100 := by
  refine ⟨tempConv_4881, ?_⟩
  rw [tempConv_4881]
  norm_num

/-- C2: on any finite schedule of reports, one assembly cycle yields a
snapshot exactly when the schedule holds at least one report for each of
the three known tags; each field of the snapshot is the decoded value of
the last report the loop consumed for that field's tag (later reports for
one tag overwrite earlier ones); and with exactly one report per known tag
the resulting snapshot is the same whether the reports arrive in the given
order or reversed.  `read_data` never returns a partial snapshot: the `ok`
outcome always carries all three fields. -/
theorem C2_snapshot_assembly (now : ℕ) (bufs : List (List Byte)) :
    ((∃ d rest, read_data now (bufs.map .report) = (.ok d, rest)) ↔
      ((∃ b ∈ bufs, tagOf b = CO2_ADDRESS) ∧ (∃ b ∈ bufs, tagOf b = TEMPERATURE_ADDRESS) ∧
        (∃ b ∈ bufs, tagOf b = HUMIDITY_ADDRESS))) ∧
    (∀ d rest, read_data now (bufs.map .report) = (.ok d, rest) →
      ∃ pre post, bufs = pre ++ post ∧ rest = post.map .report ∧ d.time = now ∧
        some d.co2 = lastValueFor CO2_ADDRESS pre ∧
        some d.temperature = (lastValueFor TEMPERATURE_ADDRESS pre).map tempConv ∧
        some d.humidity = (lastValueFor HUMIDITY_ADDRESS pre).map humConv) ∧
    (∀ b50 b42 b41,
      bufs.filter (fun b => tagOf b == CO2_ADDRESS) = [b50] →
      bufs.filter (fun b => tagOf b == TEMPERATURE_ADDRESS) = [b42] →
      bufs.filter (fun b => tagOf b == HUMIDITY_ADDRESS) = [b41] →
      ∃ rest rest2,
        read_data now (bufs.map .report)
          = (.ok ⟨now, valueOf b50, tempConv (valueOf b42), humConv (valueOf b41)⟩, rest) ∧
        read_data now (bufs.reverse.map .report)
          = (.ok ⟨now, valueOf b50, tempConv (valueOf b42), humConv (valueOf b41)⟩, rest2)) := by
  refine ⟨⟨?_, ?_⟩, ?_, ?_⟩
  · rintro ⟨d, rest, h⟩
    have hcov := ok_covers now bufs ⟨List.replicate 8 0, none, none, none⟩ d rest h
    obtain ⟨o1, o2, o3⟩ := hcov
    refine ⟨?_, ?_, ?_⟩
    · rcases o1 with h1 | h1
      · simp at h1
      · exact h1
    · rcases o2 with h2 | h2
      · simp at h2
      · exact h2
    · rcases o3 with h3 | h3
      · simp at h3
      · exact h3
  · rintro ⟨h1, h2, h3⟩
    exact covers_ok now bufs ⟨List.replicate 8 0, none, none, none⟩
      ⟨Or.inr h1, Or.inr h2, Or.inr h3⟩
  · exact fun d rest h => read_data_ok_fields now bufs d rest h
  · intro b50 b42 b41 h50 h42 h41
    obtain ⟨rest, hfwd⟩ := read_data_one_each now bufs b50 b42 b41 h50 h42 h41
    have h50r : bufs.reverse.filter (fun b => tagOf b == CO2_ADDRESS) = [b50] := by
      rw [List.filter_reverse, h50]
      rfl
    have h42r : bufs.reverse.filter (fun b => tagOf b == TEMPERATURE_ADDRESS) = [b42] := by
      rw [List.filter_reverse, h42]
      rfl
    have h41r : bufs.reverse.filter (fun b => tagOf b == HUMIDITY_ADDRESS) = [b41] := by
      rw [List.filter_reverse, h41]
      rfl
    obtain ⟨rest2, hrev⟩ := read_data_one_each now bufs.reverse b50 b42 b41 h50r h42r h41r
    exact ⟨rest, rest2, hfwd, hrev⟩

/-- C3 (code bug): the claim — and §4.4/§8.5 of the specification — say
`start()` sets `running = true` before launching its worker, so that
start–stop–start–stop yields two independent worker lifetimes.  In the
source, `running` is set `true` only in `new()` and `start_monitoring`
never touches it, while `stop_monitoring` stores `false`; hence after the
first stop the second worker's very first loop-top load of `running`
returns `false` and that worker exits without running a single assembly
cycle: the dispatch log of the call sequence is `[[d1], []]` even though a
successful assembly `d2` was available to the second lifetime — the stale
flag value leaks from the first lifetime into the second. -/
theorem C3_restart_worker_runs_nothing (d1 d2 : DeviceData) :
    runCalls AirControl.new
        [.start [CycleResult.success d1], .stop, .start [CycleResult.success d2], .stop]
      = (⟨false, none⟩, [[d1], []]) ∧
    AirControl.new.running = true ∧
    (start_monitoring (stop_monitoring AirControl.new)).running = false := by
  exact ⟨rfl, rfl, rfl⟩

/-- C4: the worker loads `running` only at the top of each cycle.  If the
load returns `false` from loop-top `k` onwards — i.e. stop was requested
during cycle `k-1` at the latest, so at most one full cycle was still in
flight — then the worker runs at most `k` assembly cycles, dispatches at
most `k` snapshots, and its dispatches are exactly those of the first `k`
schedule entries: nothing is dispatched at or after the first `false`
load, hence nothing after the worker exits and `stop()`'s join returns. -/
theorem C4_cancellation_bound (steps : List (Bool × CycleResult)) (k : ℕ)
    (h : ∀ s ∈ steps.drop k, s.1 = false) :
    cyclesRun steps ≤ k ∧ (workerRun steps).1 = (workerRun (steps.take k)).1 ∧
    (workerRun steps).1.length ≤ k := by
  obtain ⟨h1, h2⟩ := workerRun_stop_bound steps k h
  exact ⟨h1, h2, le_trans (workerRun_length_le steps) h1⟩

/-- C4 witness: a schedule whose second loop-top load already sees the stop
request runs exactly one cycle and dispatches only that cycle's snapshot. -/
theorem C4_cancellation_bound_witness :
    cyclesRun [((true : Bool), CycleResult.success ⟨0, 300, 25, 50⟩),
        ((false : Bool), CycleResult.success ⟨1, 400, 26, 51⟩)] ≤ 1 ∧
      (workerRun [((true : Bool), CycleResult.success ⟨0, 300, 25, 50⟩),
          ((false : Bool), CycleResult.success ⟨1, 400, 26, 51⟩)]).1
        = (workerRun ([((true : Bool), CycleResult.success ⟨0, 300, 25, 50⟩),
            ((false : Bool), CycleResult.success ⟨1, 400, 26, 51⟩)].take 1)).1 ∧
      (workerRun [((true : Bool), CycleResult.success ⟨0, 300, 25, 50⟩),
          ((false : Bool), CycleResult.success ⟨1, 400, 26, 51⟩)]).1.length ≤ 1 :=
  C4_cancellation_bound
    [((true : Bool), CycleResult.success ⟨0, 300, 25, 50⟩),
      ((false : Bool), CycleResult.success ⟨1, 400, 26, 51⟩)] 1 (by decide)

/-- C5: `register_callback` appends to the end of the shared list, so the
registry after any action sequence lists the callbacks in registration
order; a dispatch invokes exactly the observers registered at that moment,
in registration order, each invocation carrying the same four scalar
fields of that snapshot (in particular, registering A then B and then
dispatching invokes A then B with identical values); and an observer
registered after some dispatches receives exactly the subsequent
dispatches, never the earlier ones. -/
theorem C5_observer_registry (ops pre post : List RegOp) (d : DeviceData)
    (cbs0 : List CallbackId) (a b c : CallbackId) :
    ((runRegOps cbs0 ops).1 = cbs0 ++ regsOf ops) ∧
    ((runRegOps cbs0 (pre ++ .emit d :: post)).2
      = (runRegOps cbs0 pre).2 ++ (dispatch (cbs0 ++ regsOf pre) d
          ++ (runRegOps (cbs0 ++ regsOf pre) post).2)) ∧
    (dispatch [a, b] d = [⟨a, d.time, d.co2, d.temperature, d.humidity⟩,
        ⟨b, d.time, d.co2, d.temperature, d.humidity⟩]) ∧
    ((dispatch (runRegOps [] [.register a, .register b]).1 d).map (fun i => i.cb) = [a, b]) ∧
    (c ∉ cbs0 → c ∉ regsOf pre → c ∉ regsOf post →
      ((runRegOps cbs0 (pre ++ .register c :: post)).2).filter (fun i => i.cb == c)
        = (emitsOf post).map (fun d2 => ⟨c, d2.time, d2.co2, d2.temperature, d2.humidity⟩)) := by
  refine ⟨runRegOps_registry ops cbs0, ?_, rfl, rfl, ?_⟩
  · rw [runRegOps_append pre cbs0 (.emit d :: post), runRegOps_registry pre cbs0]
    rfl
  · intro h0 h1 h2
    rw [runRegOps_append pre cbs0 (.register c :: post)]
    have hsplit : ((runRegOps cbs0 pre).2
          ++ (runRegOps (runRegOps cbs0 pre).1 (.register c :: post)).2).filter
        (fun i => i.cb == c)
        = ((runRegOps cbs0 pre).2).filter (fun i => i.cb == c)
          ++ ((runRegOps (runRegOps cbs0 pre).1 (.register c :: post)).2).filter
            (fun i => i.cb == c) := List.filter_append _ _
    rw [hsplit, log_filter_absent pre cbs0 h0 h1, List.nil_append,
      runRegOps_registry pre cbs0]
    have hstep : (runRegOps (cbs0 ++ regsOf pre) (.register c :: post)).2
        = (runRegOps ((cbs0 ++ regsOf pre) ++ [c]) post).2 := rfl
    rw [hstep]
    have hshape : (cbs0 ++ regsOf pre) ++ [c] = (cbs0 ++ regsOf pre) ++ c :: [] := rfl
    have hnotmem : c ∉ cbs0 ++ regsOf pre := by
      intro hm
      rcases List.mem_append.mp hm with hm | hm
      · exact h0 hm
      · exact h1 hm
    rw [hshape]
    exact log_filter_found post (cbs0 ++ regsOf pre) [] hnotmem (by simp) h2

/-- C6: during assembly a read timeout is retried and is not an error
(outcomes are unchanged when all timeout events are removed from the
schedule); a hard transport read error aborts the cycle and propagates as
an explicit error value carrying a human-readable description of the
transport fault; and there is no partial-result return path — the loop's
final unwraps can never fail, so the outcome is a complete snapshot, an
error, or still-waiting. -/
theorem C6_transport_error_handling (now : ℕ) (evs : List ReadEvent) :
    ((read_data now (evs.filter (fun ev => !isTimeout ev))).1 = (read_data now evs).1) ∧
    (∀ st e rest, read_data now evs = (.pending st, []) →
      (read_data now (evs ++ .fail e :: rest)).1
        = .err ("Could not read the device: " ++ e)) ∧
    ((read_data now evs).1 ≠ .panic) := by
  refine ⟨?_, ?_, readDataLoop_ne_panic now evs _⟩
  · exact loop_drop_timeouts now evs _ initAcc_stable
  · intro st e rest h
    have hext := loop_pending_extend now evs _ st h (.fail e :: rest)
    have hpend : st.complete = false := loop_pending_inv now evs _ st [] h
    show (readDataLoop now (evs ++ .fail e :: rest) _).1 = _
    rw [hext]
    simp [readDataLoop, hpend]

/-- C7: when an assembly cycle run by the worker fails, the worker reports
the failure and exits its loop at once: the failed cycle dispatches
nothing, the preceding successful cycles' snapshots are all that was
dispatched, no retry happens, and no further cycle is started — whatever
the rest of the schedule would have offered. -/
theorem C7_worker_failure_exit (ds : List DeviceData) (e : String)
    (post : List (Bool × CycleResult)) :
    workerRun (ds.map (fun d => ((true : Bool), CycleResult.success d))
        ++ ((true : Bool), CycleResult.failure e) :: post)
      = (ds, some (.errored e)) ∧
    cyclesRun (ds.map (fun d => ((true : Bool), CycleResult.success d))
        ++ ((true : Bool), CycleResult.failure e) :: post)
      = ds.length + 1 :=
  workerRun_failure ds e post

/-- C8 (amended): `stop_monitoring` stores `false` into `running` and,
when a worker handle is present, joins it and clears the handle — the
controller always ends in the state `running = false, no handle`.  A
second consecutive `stop()` (flag already `false`, handle absent) is a
no-op, and `stop ∘ stop = stop`, so stopping is idempotent; stopping a
controller with no active worker skips the join and returns promptly.
However, on a controller that was never started, `stop()` is not a pure
no-op: it flips the `running` flag from its construction-time `true` to
`false` (see the counterexample and C3). -/
theorem C8_stop_idempotent (c : AirControl) :
    stop_monitoring c = ⟨false, none⟩ ∧
    stop_monitoring (stop_monitoring c) = stop_monitoring c ∧
    (c.running = false → c.monitoring_thread = none → stop_monitoring c = c) := by
  refine ⟨stop_monitoring_eq c, ?_, ?_⟩
  · rw [stop_monitoring_eq, stop_monitoring_eq]
  · intro h1 h2
    rw [stop_monitoring_eq]
    rcases c with ⟨r, th⟩
    simp only at h1 h2
    rw [h1, h2]

/-- C8 counterexample: on a never-started controller `stop()` is not a
no-op — `new()` initialises `running = true` and `stop_monitoring` flips
it to `false`, an observable state change (a later `start_monitoring`
spawns a worker that does nothing; see C3). -/
theorem C8_stop_on_fresh_changes_state :
    stop_monitoring AirControl.new ≠ AirControl.new := by
  decide

/-- C9: a report whose tag byte is none of `0x50`, `0x42`, `0x41` falls to
the `_ => {}` arm: it updates no field of the in-progress record and
raises no error, and a schedule consisting only of such reports never
yields a snapshot (for example, reports tagged `0x99`). -/
theorem C9_unknown_tag_ignored (st : AccState) (b : List Byte)
    (bufs : List (List Byte)) (now : ℕ) :
    (tagOf b ≠ CO2_ADDRESS → tagOf b ≠ TEMPERATURE_ADDRESS → tagOf b ≠ HUMIDITY_ADDRESS →
      (stepBuf st b).co2 = st.co2 ∧ (stepBuf st b).temperature = st.temperature ∧
        (stepBuf st b).humidity = st.humidity) ∧
    ((∀ b2 ∈ bufs, tagOf b2 ≠ CO2_ADDRESS ∧ tagOf b2 ≠ TEMPERATURE_ADDRESS ∧
        tagOf b2 ≠ HUMIDITY_ADDRESS) →
      ∀ d rest, read_data now (bufs.map .report) ≠ (.ok d, rest)) ∧
    (∀ d rest, read_data now [.report [0x99, 0x01, 0x2C, 0, 0, 0, 0, 0]] ≠ (.ok d, rest)) := by
  have hgen : ∀ (bufs2 : List (List Byte)),
      (∀ b2 ∈ bufs2, tagOf b2 ≠ CO2_ADDRESS ∧ tagOf b2 ≠ TEMPERATURE_ADDRESS ∧
        tagOf b2 ≠ HUMIDITY_ADDRESS) →
      ∀ d rest, read_data now (bufs2.map .report) ≠ (.ok d, rest) := by
    intro bufs2 hall d rest h
    obtain ⟨o1, _, _⟩ := ok_covers now bufs2 ⟨List.replicate 8 0, none, none, none⟩ d rest h
    rcases o1 with h1 | ⟨b2, hb2, htag⟩
    · simp at h1
    · exact (hall b2 hb2).1 htag
  refine ⟨?_, hgen bufs, ?_⟩
  · intro h1 h2 h3
    refine ⟨?_, ?_, ?_⟩
    · rw [stepBuf_co2, if_neg h1]
    · rw [stepBuf_temperature, if_neg h2]
    · rw [stepBuf_humidity, if_neg h3]
  · exact hgen [[0x99, 0x01, 0x2C, 0, 0, 0, 0, 0]] (by decide)

/-- C10: `read_data` cannot panic on its `unwrap` calls.  The decoded raw
value of any buffer of bytes is at most 65535; for any such value the
temperature and humidity conversions land in a small finite range (far
inside `f32`'s finite range, so formatting yields an ordinary decimal
numeral whose parse succeeds) and are exact two-decimal values, so the
format-then-parse round-trip loses nothing; and when the accumulation loop
exits, all three option fields are `some`, so the final three unwraps can
never fail — modelled by the `panic` outcome being unreachable. -/
theorem C10_read_data_no_panic (now : ℕ) (evs : List ReadEvent) (b : List Byte) (v : ℕ) :
    valueOf b ≤ 65535 ∧
    (v ≤ 65535 →
      |tempConv v| ≤ 17000 ∧ 0 ≤ humConv v ∧ humConv v ≤ 1400 ∧
      (∃ k : ℤ, tempConv v = (k : ℚ) / 100) ∧ (∃ k : ℤ, humConv v = (k : ℚ) / 100)) ∧
    (read_data now evs).1 ≠ .panic := by
  refine ⟨?_, ?_, readDataLoop_ne_panic now evs _⟩
  · have h1 := (b.getD 1 0).isLt
    have h2 := (b.getD 2 0).isLt
    unfold valueOf
    omega
  · intro hv
    have hvq : ((v : ℚ)) ≤ 65535 := by exact_mod_cast hv
    have hvq0 : (0 : ℚ) ≤ (v : ℚ) := Nat.cast_nonneg v
    have habs16 : |(v : ℚ) / 16| ≤ 4096 := by
      rw [abs_of_nonneg (by positivity)]
      linarith
    have ha : |fl32 ((v : ℚ) / 16)| ≤ 8192 := by
      have := fl32_le_twice ((v : ℚ) / 16)
      linarith
    have hcbound : |c273_15| ≤ 274 := by
      rw [c273_15_eval]
      rw [abs_of_nonneg (by norm_num)]
      norm_num
    have hdiff : |fl32 ((v : ℚ) / 16) - c273_15| ≤ 8466 := by
      calc |fl32 ((v : ℚ) / 16) - c273_15|
          ≤ |fl32 ((v : ℚ) / 16)| + |c273_15| := abs_sub _ _
        _ ≤ 8466 := by linarith
    have hb2 : |fl32 (fl32 ((v : ℚ) / 16) - c273_15)| ≤ 16932 := by
      have := fl32_le_twice (fl32 ((v : ℚ) / 16) - c273_15)
      linarith
    refine ⟨?_, ?_, ?_, ⟨rhe (fl32 (fl32 ((v : ℚ) / 16) - c273_15) * 100), rfl⟩,
      ⟨rhe (fl32 ((v : ℚ) / 100) * 100), rfl⟩⟩
    · have := round2_abs (fl32 (fl32 ((v : ℚ) / 16) - c273_15))
      unfold tempConv
      linarith
    · exact round2_nonneg (fl32_nonneg (by positivity))
    · have habs100 : |(v : ℚ) / 100| ≤ 656 := by
        rw [abs_of_nonneg (by positivity)]
        linarith
      have hfl : |fl32 ((v : ℚ) / 100)| ≤ 1312 := by
        have := fl32_le_twice ((v : ℚ) / 100)
        linarith
      have hr := round2_abs (fl32 ((v : ℚ) / 100))
      have hle : humConv v ≤ |humConv v| := le_abs_self _
      unfold humConv at hle ⊢
      linarith [abs_le.mp hr]
